import Mathlib

/-!
Shallow embedding of the enrichment-and-delivery pipeline (service/main.go)
and of the producer client's category normalization (the bulk CSV submitter).

The service accepts one record per request, enriches it against an external
endpoint with up to 3 attempts and exponential backoff, hands successfully
enriched records to a bounded channel, and a single dispatcher loop drains
that channel into an in-memory batch slice, flushing up to 20 records to the
analytics sink every timer tick.  External effects (HTTP responses, delivery
outcomes) are modelled as oracle parameters; every other step of control flow
mirrors the Go source.
-/

namespace Pipeline

/-- The unit of work (`Record` in service/main.go): identification fields set
by the producer, plus the fields overwritten by enrichment. -/
structure Record where
  id : String
  assetName : String
  ip : String
  createdUtc : String
  source : String
  category : String
  asn : String
  correlationId : Int
deriving DecidableEq, Repr

/-- A concrete record used in scenario computations (only `id` varies). -/
def mkRec (i : Nat) : Record :=
  ⟨toString i, "asset", "10.0.0.1", "2024-01-01T00:00:00Z", "src", "phishing", "", 0⟩

/-! ## Enrichment client (`enrichRecord`, service/main.go lines 66-127)

One HTTP attempt, as observable by the code: building the request can fail
(immediate return), the transport call can fail, reading the body can fail,
the status can be non-200, or the body can fail to unmarshal; otherwise the
response carries `{asn, category, correlationId}`. -/
inductive AttemptEnv where
  | buildError (msg : String)
  | doError (msg : String)
  | readError (msg : String)
  | response (status : Nat) (parsed : Option (String × String × Int))
deriving DecidableEq, Repr

/-- Outcome of one loop iteration of `enrichRecord`. -/
inductive StepResult where
  | fatal (msg : String)
  | failed
  | enriched (r : Record)
deriving DecidableEq, Repr

/-- The body of one attempt (lines 81-117): a request-build error returns at
once; transport, read, non-200 and unmarshal failures mark the attempt
failed; a 200 response that unmarshals overwrites `asn`, `category` and
`correlationId` on the record. -/
def attemptStep (record : Record) (env : AttemptEnv) : StepResult :=
  match env with
  | .buildError msg => .fatal msg
  | .doError _ => .failed
  | .readError _ => .failed
  | .response status parsed =>
    if status = 200 then
      match parsed with
      | some (a, c, i) => .enriched { record with asn := a, category := c, correlationId := i }
      | none => .failed
    else .failed

/-- `maxRetries := 3` (line 78). -/
def maxRetries : Nat := 3

/-- What `enrichRecord` returns, together with the observable retry history:
the record value returned (Go returns the record in every path), the error
if any, the number of the attempt on which the loop ended, and the list of
sleeps performed (line 120), in order. -/
structure EnrichResult where
  record : Record
  error : Option String
  attemptsMade : Nat
  delays : List Nat
deriving DecidableEq, Repr

/-- The retry loop of `enrichRecord` (lines 80-126): attempts run while
`attempt ≤ maxRetries`; a failed attempt with `attempt < maxRetries` sleeps
`retryDelay` and doubles it; a failed final attempt returns the terminal
error immediately (no sleep).  `oracle k` is the environment's behaviour on
attempt `k`. -/
def enrichFrom (record : Record) (oracle : Nat → AttemptEnv) (attempt retryDelay : Nat)
    (delays : List Nat) : EnrichResult :=
  if attempt ≤ maxRetries then
    match attemptStep record (oracle attempt) with
    | .fatal msg => ⟨record, some msg, attempt, delays⟩
    | .enriched r => ⟨r, none, attempt, delays⟩
    | .failed =>
      if attempt < maxRetries then
        enrichFrom record oracle (attempt + 1) (retryDelay * 2) (delays ++ [retryDelay])
      else
        ⟨record, some ("failed to enrich record after " ++ toString maxRetries ++ " attempts"),
          attempt, delays⟩
  else
    ⟨record, some "unexpected error during enrichment", attempt, delays⟩
termination_by maxRetries + 1 - attempt
decreasing_by simp_wf; omega

/-- `enrichRecord` (line 66): the loop entered at attempt 1 with delay 1. -/
def enrichRecord (record : Record) (oracle : Nat → AttemptEnv) : EnrichResult :=
  enrichFrom record oracle 1 1 []

/-! ## Intake handler (`processHandler`, lines 34-64) -/

/-- Decoding of the inbound request, as observable by the handler: body read
failure, JSON unmarshal failure, or a decoded record. -/
inductive DecodeResult where
  | readError
  | badJson
  | ok (r : Record)
deriving DecidableEq, Repr

/-- `processHandler`: read/decode failures answer 400 with no side effect;
enrichment failure answers 500 and drops the record; on success the enriched
record is sent to `recordChannel` and the caller gets 200.  The second
component is the record handed to the channel, if any. -/
def processHandler (decoded : DecodeResult) (oracle : Nat → AttemptEnv) :
    Nat × Option Record :=
  match decoded with
  | .readError => (400, none)
  | .badJson => (400, none)
  | .ok record =>
    let res := enrichRecord record oracle
    match res.error with
    | some _ => (500, none)
    | none => (200, some res.record)

/-! ## Dispatcher loop (`startSendingToAnalytics`, lines 129-155)

The loop's local state is the slice `batch`.  Each iteration of the `select`
either receives one record from `recordChannel` and appends it, or handles a
timer tick: a non-empty batch is split at 20 (`batch[:20]` kept for sending,
`batch[20:]` retained) or sent whole (`batch[:0]` retained). -/
inductive DEvent where
  | recv (r : Record)
  | tick
deriving DecidableEq, Repr

/-- One iteration of the dispatcher `select`: the new batch slice, and the
records handed to `sendToAnalytics`, if any. -/
def dispatchStep (batch : List Record) : DEvent → List Record × Option (List Record)
  | .recv r => (batch ++ [r], none)
  | .tick =>
    if batch.length > 0 then
      if batch.length ≥ 20 then
        (batch.drop 20, some (batch.take 20))
      else
        ([], some batch)
    else
      (batch, none)

/-- The tick branch with the outcome of `sendToAnalytics` made explicit
(`sendErr = none` means delivery succeeded).  As in the source, the error is
only logged (line 150): it does not enter the state update. -/
def tickSend (batch : List Record) (sendErr : Option String) :
    List Record × Option (List Record) :=
  if batch.length > 0 then
    if batch.length ≥ 20 then
      (batch.drop 20, some (batch.take 20))
    else
      ([], some batch)
  else
    (batch, none)

/-- Run the dispatcher over a sequence of wake-ups from batch state `b`,
collecting the final batch and every dispatched batch in order. -/
def runFrom (b : List Record) : List DEvent → List Record × List (List Record)
  | [] => (b, [])
  | e :: es =>
    match dispatchStep b e with
    | (b₂, none) => runFrom b₂ es
    | (b₂, some B) =>
      let rest := runFrom b₂ es
      (rest.1, B :: rest.2)

/-- Run the dispatcher from an empty batch. -/
def run (es : List DEvent) : List Record × List (List Record) :=
  runFrom [] es

/-- The records received from the channel, in arrival (enqueue) order. -/
def enqueuedOf : List DEvent → List Record
  | [] => []
  | .recv r :: es => r :: enqueuedOf es
  | .tick :: es => enqueuedOf es

/-! ## The full holding area (`recordChannel` plus the dispatcher slice)

`recordChannel` (line 24) has capacity 20; a producer's send blocks while it
holds 20 records.  The dispatcher moves records out of the channel into its
unbounded local slice between ticks. -/
structure SysState where
  channel : List Record
  batch : List Record
  sent : List (List Record)
deriving DecidableEq, Repr

inductive SysEvent where
  | handoff (r : Record)
  | deliver
  | tick
deriving DecidableEq, Repr

/-- One system step.  `handoff r` is a producer completing `recordChannel <-
r` (possible only while the channel holds fewer than 20); `deliver` is the
dispatcher's `case record := <-recordChannel`; `tick` is the timer branch.
`none` means the event cannot fire in this state (the actor blocks). -/
def sysStep (s : SysState) : SysEvent → Option SysState
  | .handoff r =>
    if s.channel.length < 20 then
      some { s with channel := s.channel ++ [r] }
    else
      none
  | .deliver =>
    match s.channel with
    | [] => none
    | r :: rest => some { s with channel := rest, batch := s.batch ++ [r] }
  | .tick =>
    match dispatchStep s.batch .tick with
    | (b₂, none) => some { s with batch := b₂ }
    | (b₂, some B) => some { s with batch := b₂, sent := s.sent ++ [B] }

/-- Run a feasible schedule of system events; `none` if some event blocks. -/
def sysRunFrom (s : SysState) : List SysEvent → Option SysState
  | [] => some s
  | e :: es =>
    match sysStep s e with
    | none => none
    | some s₂ => sysRunFrom s₂ es

def initState : SysState := ⟨[], [], []⟩

def sysRun (es : List SysEvent) : Option SysState :=
  sysRunFrom initState es

/-- Records held between enrichment and dispatch: in the channel or in the
dispatcher's slice, not yet handed to the sender. -/
def held (s : SysState) : Nat :=
  s.channel.length + s.batch.length

/-! ## Concrete scenario data -/

/-- An enrichment endpoint that answers status 500 on every attempt. -/
def failOracle : Nat → AttemptEnv := fun _ => .response 500 none

/-- An enrichment endpoint that answers 200 with a well-formed body. -/
def okOracle : Nat → AttemptEnv := fun _ => .response 200 (some ("AS64500", "malware", 42))

def recX : Record := ⟨"X", "asset", "10.0.0.1", "2024-01-01T00:00:00Z", "src", "phishing", "", 0⟩

def recY : Record := ⟨"Y", "asset", "10.0.0.1", "2024-01-01T00:00:00Z", "src", "phishing", "", 0⟩

/-- What `okOracle` turns `recX` into. -/
def recXEnriched : Record :=
  ⟨"X", "asset", "10.0.0.1", "2024-01-01T00:00:00Z", "src", "malware", "AS64500", 42⟩

/-- One record received, then one tick. -/
def wEvents : List DEvent := [.recv (mkRec 0), .tick]

/-- 25 records received in rapid succession, then two timer ticks. -/
def scenario25 : List DEvent :=
  ((List.range 25).map (fun i => DEvent.recv (mkRec i))) ++ [DEvent.tick, DEvent.tick]

def bigBatch : List Record := (List.range 21).map mkRec

def batch10 : List Record := (List.range 10).map mkRec

/-- 20 producer hand-offs (filling the channel), then the dispatcher takes
one record into its slice. -/
def fillEvents : List SysEvent :=
  ((List.range 20).map (fun i => SysEvent.handoff (mkRec i))) ++ [SysEvent.deliver]

/-- ... after which a 21st hand-off is accepted. -/
def overfillEvents : List SysEvent := fillEvents ++ [SysEvent.handoff (mkRec 20)]

/-- The state reached by `fillEvents`: 19 records in the channel, one in the
dispatcher's slice. -/
def fillState : SysState := ⟨(List.range 19).map (fun i => mkRec (i + 1)), [mkRec 0], []⟩

end Pipeline

namespace Client

/-! ## Producer client category normalization (src/unnamed/part_000)

`sanitizeCategory` lower-cases the input, trims surrounding white space
(Go `strings.ToLower` then `strings.TrimSpace`), and replaces it by the
canonical token when the synonym table `categoryMap` knows it. -/

/-- Go `unicode.IsSpace` on the code points `strings.TrimSpace` trims in
Latin-1: space, tab, newline, vertical tab, form feed, carriage return,
next line (U+0085) and no-break space (U+00A0). -/
def goIsSpace (c : Char) : Bool :=
  c.toNat = 32 || c.toNat = 9 || c.toNat = 10 || c.toNat = 11 || c.toNat = 12 ||
    c.toNat = 13 || c.toNat = 133 || c.toNat = 160

/-- `strings.ToLower`, modelled rune-wise on the basic latin range (the
synonym table and canonical tokens are ASCII). -/
def lowerStr (s : String) : String :=
  String.mk (s.data.map Char.toLower)

/-- `strings.TrimSpace` on the underlying rune list. -/
def trimRunes (l : List Char) : List Char :=
  ((( l.dropWhile goIsSpace).reverse.dropWhile goIsSpace)).reverse

def trimStr (s : String) : String :=
  String.mk (trimRunes s.data)

/-- The synonym table `categoryMap` (part_000 lines 25-64), as an
association list; the Go map's keys are pairwise distinct, so lookup
agrees. -/
def categoryMap : List (String × String) :=
  [("contentinjection", "contentinjection"),
   ("content injection", "contentinjection"),
   ("content_injection", "contentinjection"),
   ("drivebycompromise", "drivebycompromise"),
   ("drive by compromise", "drivebycompromise"),
   ("drive-by-compromise", "drivebycompromise"),
   ("compromise (driveby)", "drivebycompromise"),
   ("exploitpublicfacingapplication", "exploitpublicfacingapplication"),
   ("exploit public facing", "exploitpublicfacingapplication"),
   ("explaoit-public facing", "exploitpublicfacingapplication"),
   ("externalremoteservices", "externalremoteservices"),
   ("external remote service", "externalremoteservices"),
   ("external-remote-service", "externalremoteservices"),
   ("phishing", "phishing"),
   ("phising", "phishing"),
   ("Phising", "phishing"),
   ("replicationthroughremovablemedia", "replicationthroughremovablemedia"),
   ("replication through removable media", "replicationthroughremovablemedia"),
   ("Replication through removable media", "replicationthroughremovablemedia"),
   ("replication-through-removable-media", "replicationthroughremovablemedia"),
   ("supplychaincompromise", "supplychaincompromise"),
   ("supply chain compromise", "supplychaincompromise"),
   ("supply_chain_compromise", "supplychaincompromise"),
   ("trustedrelationship", "trustedrelationship"),
   ("trusted relationship", "trustedrelationship"),
   ("trusted-relationship", "trustedrelationship"),
   ("validaccounts", "validaccounts"),
   ("valid accounts", "validaccounts"),
   ("valid-accounts", "validaccounts"),
   ("valida_accounts", "validaccounts")]

/-- `sanitizeCategory` (part_000 lines 66-73). -/
def sanitizeCategory (category : String) : String :=
  let normalizedCategory := trimStr (lowerStr category)
  match categoryMap.lookup normalizedCategory with
  | some correctCategory => correctCategory
  | none => normalizedCategory

end Client

/-!
# Verification

Helper lemmas about the embedded operations, followed by one theorem per
specification claim.
-/

namespace Pipeline

/-- Everything the dispatcher ever hands to the sender, concatenated in
dispatch order, followed by the leftover batch, is exactly the starting
batch followed by the records received, in arrival order. -/
theorem runFrom_flatten (es : List DEvent) : ∀ b : List Record,
    ((runFrom b es).2).flatten ++ (runFrom b es).1 = b ++ enqueuedOf es := by
  induction es with
  | nil => intro b; simp [runFrom, enqueuedOf]
  | cons e es ih =>
    intro b
    cases e with
    | recv r =>
      simp only [runFrom, dispatchStep]
      rw [ih (b ++ [r])]
      simp [enqueuedOf]
    | tick =>
      by_cases h0 : b.length > 0
      · by_cases h20 : b.length ≥ 20
        · simp only [runFrom, dispatchStep, if_pos h0, if_pos h20, List.flatten_cons]
          rw [List.append_assoc, ih (b.drop 20)]
          rw [← List.append_assoc, List.take_append_drop]
          simp [enqueuedOf]
        · simp only [runFrom, dispatchStep, if_pos h0, if_neg h20, List.flatten_cons]
          rw [List.append_assoc, ih []]
          simp [enqueuedOf]
      · simp only [runFrom, dispatchStep, if_neg h0]
        rw [ih b]
        simp [enqueuedOf]

/-- Every dispatched batch has at most 20 records. -/
theorem runFrom_batch_le (es : List DEvent) : ∀ b B, B ∈ (runFrom b es).2 → B.length ≤ 20 := by
  induction es with
  | nil => intro b B h; simp [runFrom] at h
  | cons e es ih =>
    intro b B h
    cases e with
    | recv r =>
      simp only [runFrom, dispatchStep] at h
      exact ih _ _ h
    | tick =>
      by_cases h0 : b.length > 0
      · by_cases h20 : b.length ≥ 20
        · simp only [runFrom, dispatchStep, if_pos h0, if_pos h20] at h
          rcases List.mem_cons.mp h with hB | hB
          · subst hB; simp
          · exact ih _ _ hB
        · simp only [runFrom, dispatchStep, if_pos h0, if_neg h20] at h
          rcases List.mem_cons.mp h with hB | hB
          · subst hB; omega
          · exact ih _ _ hB
      · simp only [runFrom, dispatchStep, if_neg h0] at h
        exact ih _ _ h

/-- A record inside a dispatched batch was received from the channel. -/
theorem batch_member_was_enqueued (es : List DEvent) (B : List Record) (r : Record)
    (hB : B ∈ (run es).2) (hr : r ∈ B) : r ∈ enqueuedOf es := by
  have hinv := runFrom_flatten es []
  rw [List.nil_append] at hinv
  have h1 : r ∈ ((runFrom [] es).2).flatten := List.mem_flatten.mpr ⟨B, hB, hr⟩
  have h2 : r ∈ ((runFrom [] es).2).flatten ++ (runFrom [] es).1 := List.mem_append_left _ h1
  rw [hinv] at h2
  exact h2

/-- `enrichRecord` unrolled over its (at most three) attempts: the result is
a function of the first three oracle answers only, with the sleeps 1 and 2
performed after the first and second failed attempts. -/
theorem enrichRecord_eq (record : Record) (oracle : Nat → AttemptEnv) :
    enrichRecord record oracle =
      match attemptStep record (oracle 1) with
      | .fatal m => ⟨record, some m, 1, []⟩
      | .enriched r => ⟨r, none, 1, []⟩
      | .failed =>
        match attemptStep record (oracle 2) with
        | .fatal m => ⟨record, some m, 2, [1]⟩
        | .enriched r => ⟨r, none, 2, [1]⟩
        | .failed =>
          match attemptStep record (oracle 3) with
          | .fatal m => ⟨record, some m, 3, [1, 2]⟩
          | .enriched r => ⟨r, none, 3, [1, 2]⟩
          | .failed =>
            ⟨record, some ("failed to enrich record after " ++ toString maxRetries ++ " attempts"),
              3, [1, 2]⟩ := by
  unfold enrichRecord
  rw [enrichFrom]
  cases h1 : attemptStep record (oracle 1) with
  | fatal m => simp [maxRetries]
  | enriched r => simp [maxRetries]
  | failed =>
    simp only [maxRetries]
    norm_num
    rw [enrichFrom]
    cases h2 : attemptStep record (oracle 2) with
    | fatal m => simp [maxRetries]
    | enriched r => simp [maxRetries]
    | failed =>
      simp only [maxRetries]
      norm_num
      rw [enrichFrom]
      cases h3 : attemptStep record (oracle 3) with
      | fatal m => simp [maxRetries]
      | enriched r => simp [maxRetries]
      | failed => simp [maxRetries]

/-- An attempt enriches the record exactly when the environment answered 200
with a body carrying `{asn, category, correlationId}`; then the returned
record is the input with those three fields overwritten. -/
theorem attemptStep_enriched_iff (record : Record) (env : AttemptEnv) (r : Record) :
    attemptStep record env = .enriched r ↔
      ∃ a c i, env = .response 200 (some (a, c, i)) ∧
        r = { record with asn := a, category := c, correlationId := i } := by
  cases env with
  | buildError m => simp [attemptStep]
  | doError m => simp [attemptStep]
  | readError m => simp [attemptStep]
  | response status parsed =>
    by_cases hs : status = 200
    · subst hs
      cases parsed with
      | none => simp [attemptStep]
      | some t =>
        obtain ⟨a, c, i⟩ := t
        constructor
        · intro h
          simp [attemptStep] at h
          exact ⟨a, c, i, rfl, h.symm⟩
        · rintro ⟨a₂, c₂, i₂, henv, hr⟩
          simp at henv
          obtain ⟨ha, hc, hi⟩ := henv
          subst ha; subst hc; subst hi; subst hr
          simp [attemptStep]
    · simp only [attemptStep, if_neg hs]
      constructor
      · intro h; cases h
      · rintro ⟨a₂, c₂, i₂, henv, hr⟩
        injection henv with h1 h2
        exact absurd h1 hs

end Pipeline

namespace Pipeline

/-- C1: every batch handed to the analytics sender holds at most
`maxBatchSize` (20) records, and its elements appear in the same relative
order in which they were enqueued: the batch is a contiguous segment of the
enqueue-order sequence. -/
theorem dispatch_batch_size_fifo (es : List DEvent) (B : List Record)
    (hB : B ∈ (run es).2) :
    B.length ≤ 20 ∧ ∃ pre suf, pre ++ B ++ suf = enqueuedOf es := by
  constructor
  · exact runFrom_batch_le es [] B hB
  · obtain ⟨l1, l2, hL⟩ := List.append_of_mem hB
    have hinv : ((run es).2).flatten ++ (run es).1 = enqueuedOf es := by
      have h := runFrom_flatten es []
      rw [List.nil_append] at h
      exact h
    refine ⟨l1.flatten, l2.flatten ++ (run es).1, ?_⟩
    have hfl : ((run es).2).flatten = l1.flatten ++ (B ++ l2.flatten) := by
      rw [show (run es).2 = l1 ++ B :: l2 from hL]
      simp [List.flatten_append]
    rw [← hinv, hfl]
    simp [List.append_assoc]

theorem dispatch_batch_size_fifo_witness :
    [mkRec 0].length ≤ 20 ∧ ∃ pre suf, pre ++ [mkRec 0] ++ suf = enqueuedOf wEvents :=
  dispatch_batch_size_fifo wEvents [mkRec 0] (by decide)

/-- C8: 25 records arriving between ticks are dispatched as the 20
FIFO-earliest on the first tick and the remaining 5 on the next; in general
a tick on a batch of more than 20 sends exactly the first 20 and retains the
rest. -/
theorem overflow_batches_split :
    (run scenario25).2 =
      [((List.range 25).map mkRec).take 20, ((List.range 25).map mkRec).drop 20]
    ∧ ((run scenario25).2.map List.length = [20, 5])
    ∧ ∀ b : List Record, 20 < b.length →
        dispatchStep b .tick = (b.drop 20, some (b.take 20)) ∧ (b.take 20).length = 20 := by
  refine ⟨by decide, by decide, ?_⟩
  intro b hb
  have h0 : b.length > 0 := by omega
  have h20 : b.length ≥ 20 := by omega
  refine ⟨by simp only [dispatchStep, if_pos h0, if_pos h20], ?_⟩
  simp [List.length_take]
  omega

theorem overflow_batches_split_witness :
    dispatchStep bigBatch .tick = (bigBatch.drop 20, some (bigBatch.take 20))
    ∧ (bigBatch.take 20).length = 20 :=
  overflow_batches_split.2.2 bigBatch (by decide)

/-- C9: a failed delivery has no effect on the dispatcher state — the update
is the same for every send outcome and agrees with the pure tick step — the
dispatched batch is removed from the buffer for good (what remains is
exactly the buffer minus that batch, so a later tick never re-drains it),
and the loop goes on processing events. -/
theorem dispatch_failure_lossy (b : List Record) :
    (∀ e₁ e₂ : Option String, tickSend b e₁ = tickSend b e₂)
    ∧ tickSend b (some "analytics service returned status 500") = dispatchStep b .tick
    ∧ ∀ b₂ B, dispatchStep b .tick = (b₂, some B) → B ++ b₂ = b := by
  refine ⟨fun e₁ e₂ => rfl, rfl, ?_⟩
  intro b₂ B h
  simp only [dispatchStep] at h
  by_cases h0 : b.length > 0
  · rw [if_pos h0] at h
    by_cases h20 : b.length ≥ 20
    · rw [if_pos h20] at h
      simp only [Prod.mk.injEq, Option.some.injEq] at h
      rw [← h.1, ← h.2]
      exact List.take_append_drop 20 b
    · rw [if_neg h20] at h
      simp only [Prod.mk.injEq, Option.some.injEq] at h
      rw [← h.1, ← h.2]
      simp
  · rw [if_neg h0] at h
    simp at h

theorem dispatch_failure_lossy_witness : batch10 ++ ([] : List Record) = batch10 :=
  (dispatch_failure_lossy batch10).2.2 [] batch10 (by decide)

end Pipeline

namespace Pipeline

/-- C4: a single enrichment call makes at most `maxRetries` (3) attempts,
and the sleeps performed are exactly the leading part of the schedule
`[1, 2]` determined by how many attempts ran: 1 time unit before the second
attempt, 2 before the third (the delay doubles, starting at 1). -/
theorem retry_bounded_schedule (record : Record) (oracle : Nat → AttemptEnv) :
    (enrichRecord record oracle).attemptsMade ≤ maxRetries
    ∧ (enrichRecord record oracle).delays =
        [1, 2].take ((enrichRecord record oracle).attemptsMade - 1) := by
  rw [enrichRecord_eq]
  cases h1 : attemptStep record (oracle 1) with
  | fatal m => simp [maxRetries]
  | enriched r => simp [maxRetries]
  | failed =>
    cases h2 : attemptStep record (oracle 2) with
    | fatal m => simp [maxRetries]
    | enriched r => simp [maxRetries]
    | failed =>
      cases h3 : attemptStep record (oracle 3) with
      | fatal m => simp [maxRetries]
      | enriched r => simp [maxRetries]
      | failed => simp [maxRetries]

/-- C5 counterexample: on an endpoint that fails every attempt, enrichment
gives up after a total backoff of 3 time units, not at least 7 as claimed. -/
theorem backoff_total_not_seven :
    (enrichRecord recX failOracle).error ≠ none
    ∧ (enrichRecord recX failOracle).delays.sum = 3
    ∧ ¬ 7 ≤ (enrichRecord recX failOracle).delays.sum := by
  rw [enrichRecord_eq]
  decide

/-- C5 amended: when every attempt fails, the call returns a terminal error
after sleeping exactly 1 then 2 time units — a total backoff of 1+2 = 3 (no
sleep follows the final attempt), which is the failure-path lower bound on
the caller-facing intake latency. -/
theorem backoff_total_on_failure (record : Record) (oracle : Nat → AttemptEnv)
    (hall : ∀ k, attemptStep record (oracle k) = .failed) :
    (enrichRecord record oracle).error ≠ none
    ∧ (enrichRecord record oracle).delays = [1, 2]
    ∧ (enrichRecord record oracle).delays.sum = 3 := by
  rw [enrichRecord_eq, hall 1, hall 2, hall 3]
  exact ⟨by simp, rfl, rfl⟩

theorem backoff_total_on_failure_witness :
    (enrichRecord recX failOracle).error ≠ none
    ∧ (enrichRecord recX failOracle).delays = [1, 2]
    ∧ (enrichRecord recX failOracle).delays.sum = 3 :=
  backoff_total_on_failure recX failOracle (fun _ => rfl)

/-- C7 counterexample: the terminal error is one fixed message carrying the
attempt count only; two records with different ids produce the very same
error, so the error does not identify the record id. -/
theorem terminal_error_lacks_id :
    recX.id ≠ recY.id
    ∧ (enrichRecord recX failOracle).error = some "failed to enrich record after 3 attempts"
    ∧ (enrichRecord recY failOracle).error = some "failed to enrich record after 3 attempts" := by
  refine ⟨by decide, ?_, ?_⟩
  · rw [enrichRecord_eq]; rfl
  · rw [enrichRecord_eq]; rfl

/-- C7 amended: when the final attempt fails, `enrich` returns a terminal
error identifying the attempt count (`maxRetries` = 3) — but not the record
id, which appears only in the intake handler's log line. -/
theorem terminal_error_attempt_count (record : Record) (oracle : Nat → AttemptEnv)
    (hall : ∀ k, attemptStep record (oracle k) = .failed) :
    (enrichRecord record oracle).error =
      some ("failed to enrich record after " ++ toString maxRetries ++ " attempts")
    ∧ (enrichRecord record oracle).attemptsMade = maxRetries := by
  rw [enrichRecord_eq, hall 1, hall 2, hall 3]
  exact ⟨rfl, rfl⟩

theorem terminal_error_attempt_count_witness :
    (enrichRecord recX failOracle).error =
      some ("failed to enrich record after " ++ toString maxRetries ++ " attempts")
    ∧ (enrichRecord recX failOracle).attemptsMade = maxRetries :=
  terminal_error_attempt_count recX failOracle (fun _ => rfl)

end Pipeline

namespace Pipeline

/-- C3: a successful enrichment leaves `id`, `assetName`, `ip`, `createdUtc`
and `source` unchanged and sets `asn`, `category` and `correlationId` to the
values of the enrichment response received on the succeeding attempt. -/
theorem enrich_success_fields (record : Record) (oracle : Nat → AttemptEnv)
    (hok : (enrichRecord record oracle).error = none) :
    (enrichRecord record oracle).record.id = record.id
    ∧ (enrichRecord record oracle).record.assetName = record.assetName
    ∧ (enrichRecord record oracle).record.ip = record.ip
    ∧ (enrichRecord record oracle).record.createdUtc = record.createdUtc
    ∧ (enrichRecord record oracle).record.source = record.source
    ∧ ∃ a c i, oracle (enrichRecord record oracle).attemptsMade = .response 200 (some (a, c, i))
        ∧ (enrichRecord record oracle).record.asn = a
        ∧ (enrichRecord record oracle).record.category = c
        ∧ (enrichRecord record oracle).record.correlationId = i := by
  rw [enrichRecord_eq] at hok ⊢
  cases h1 : attemptStep record (oracle 1) with
  | fatal m => simp only [h1] at hok; exact Option.noConfusion hok
  | enriched r =>
    simp only [h1] at hok ⊢
    obtain ⟨a, c, i, henv, hr⟩ := (attemptStep_enriched_iff record (oracle 1) r).mp h1
    subst hr
    exact ⟨rfl, rfl, rfl, rfl, rfl, a, c, i, henv, rfl, rfl, rfl⟩
  | failed =>
    simp only [h1] at hok ⊢
    cases h2 : attemptStep record (oracle 2) with
    | fatal m => simp only [h2] at hok; exact Option.noConfusion hok
    | enriched r =>
      simp only [h2] at hok ⊢
      obtain ⟨a, c, i, henv, hr⟩ := (attemptStep_enriched_iff record (oracle 2) r).mp h2
      subst hr
      exact ⟨rfl, rfl, rfl, rfl, rfl, a, c, i, henv, rfl, rfl, rfl⟩
    | failed =>
      simp only [h2] at hok ⊢
      cases h3 : attemptStep record (oracle 3) with
      | fatal m => simp only [h3] at hok; exact Option.noConfusion hok
      | enriched r =>
        simp only [h3] at hok ⊢
        obtain ⟨a, c, i, henv, hr⟩ := (attemptStep_enriched_iff record (oracle 3) r).mp h3
        subst hr
        exact ⟨rfl, rfl, rfl, rfl, rfl, a, c, i, henv, rfl, rfl, rfl⟩
      | failed => simp only [h3] at hok; exact Option.noConfusion hok

theorem enrich_success_fields_witness :
    (enrichRecord recX okOracle).record.id = recX.id
    ∧ (enrichRecord recX okOracle).record.assetName = recX.assetName
    ∧ (enrichRecord recX okOracle).record.ip = recX.ip
    ∧ (enrichRecord recX okOracle).record.createdUtc = recX.createdUtc
    ∧ (enrichRecord recX okOracle).record.source = recX.source
    ∧ ∃ a c i, okOracle (enrichRecord recX okOracle).attemptsMade = .response 200 (some (a, c, i))
        ∧ (enrichRecord recX okOracle).record.asn = a
        ∧ (enrichRecord recX okOracle).record.category = c
        ∧ (enrichRecord recX okOracle).record.correlationId = i :=
  enrich_success_fields recX okOracle (by rw [enrichRecord_eq]; rfl)

/-- C2: a record whose enrichment fails terminally is answered with a
server error and never handed to the buffer; a record is handed to the
buffer only when its enrichment completed successfully; and every record in
a dispatched batch came out of the buffer, so a never-buffered record never
appears in any dispatched batch. -/
theorem enrichment_failure_never_buffered (record : Record) (oracle : Nat → AttemptEnv)
    (d : DecodeResult) (o₂ : Nat → AttemptEnv) (status : Nat) (buffered : Record)
    (es : List DEvent) (B : List Record) (r : Record)
    (hfail : (enrichRecord record oracle).error ≠ none) :
    processHandler (.ok record) oracle = (500, none)
    ∧ (processHandler d o₂ = (status, some buffered) →
        ∃ rec, d = .ok rec ∧ (enrichRecord rec o₂).error = none
          ∧ buffered = (enrichRecord rec o₂).record)
    ∧ (B ∈ (run es).2 → r ∈ B → r ∈ enqueuedOf es) := by
  refine ⟨?_, ?_, fun hB hr => batch_member_was_enqueued es B r hB hr⟩
  · obtain ⟨msg, hmsg⟩ := Option.ne_none_iff_exists'.mp hfail
    simp [processHandler, hmsg]
  · intro h
    cases d with
    | readError => simp [processHandler] at h
    | badJson => simp [processHandler] at h
    | ok rec =>
      cases herr : (enrichRecord rec o₂).error with
      | some m => simp [processHandler, herr] at h
      | none =>
        simp only [processHandler, herr] at h
        simp only [Prod.mk.injEq, Option.some.injEq] at h
        exact ⟨rec, rfl, herr, h.2.symm⟩

theorem enrichment_failure_never_buffered_witness :
    processHandler (.ok recX) failOracle = (500, none)
    ∧ (processHandler (.ok recX) okOracle = (200, some recXEnriched) →
        ∃ rec, DecodeResult.ok recX = .ok rec ∧ (enrichRecord rec okOracle).error = none
          ∧ recXEnriched = (enrichRecord rec okOracle).record)
    ∧ ([mkRec 0] ∈ (run wEvents).2 → mkRec 0 ∈ [mkRec 0] → mkRec 0 ∈ enqueuedOf wEvents) :=
  enrichment_failure_never_buffered recX failOracle (.ok recX) okOracle 200 recXEnriched
    wEvents [mkRec 0] (mkRec 0) (by rw [enrichRecord_eq]; decide)

end Pipeline

namespace Pipeline

/-- Channel occupancy never exceeds 20 along any feasible schedule started
from a state within capacity. -/
theorem sysRunFrom_channel_le (es : List SysEvent) : ∀ s₀ s, s₀.channel.length ≤ 20 →
    sysRunFrom s₀ es = some s → s.channel.length ≤ 20 := by
  induction es with
  | nil =>
    intro s₀ s h0 h
    simp only [sysRunFrom] at h
    cases h
    exact h0
  | cons e es ih =>
    intro s₀ s h0 h
    cases e with
    | handoff r =>
      simp only [sysRunFrom, sysStep] at h
      by_cases hc : s₀.channel.length < 20
      · rw [if_pos hc] at h
        simp only [] at h
        refine ih _ _ ?_ h
        simp
        omega
      · rw [if_neg hc] at h
        exact Option.noConfusion h
    | deliver =>
      cases hch : s₀.channel with
      | nil =>
        simp only [sysRunFrom, sysStep, hch] at h
        exact Option.noConfusion h
      | cons r rest =>
        simp only [sysRunFrom, sysStep, hch] at h
        refine ih _ _ ?_ h
        have : s₀.channel.length ≤ 20 := h0
        rw [hch] at this
        simp at this ⊢
        omega
    | tick =>
      rcases hd : dispatchStep s₀.batch .tick with ⟨b₂, sent?⟩
      cases sent? with
      | none =>
        simp only [sysRunFrom, sysStep, hd] at h
        exact ih _ _ (by simpa using h0) h
      | some B =>
        simp only [sysRunFrom, sysStep, hd] at h
        exact ih _ _ (by simpa using h0) h

/-- C6 counterexample: after 20 hand-offs the channel is full; once the
dispatcher takes one record into its slice, 20 records are held yet a 21st
hand-off is accepted rather than blocked, and afterwards 21 enriched records
are held between enrichment and dispatch — more than the claimed bound C. -/
theorem held_exceeds_capacity :
    (sysRun fillEvents).map held = some 20
    ∧ (sysRun overfillEvents).isSome
    ∧ (sysRun overfillEvents).map held = some 21 := by
  decide

/-- C6 amended: what capacity 20 bounds is the hand-off channel alone:
along every feasible schedule the channel holds at most 20 records, and a
producer's hand-off blocks exactly when the channel (not the total held)
already holds 20; the dispatcher's accumulating slice is unbounded, so the
total held between enrichment and dispatch can exceed 20. -/
theorem channel_bounded_blocking (es : List SysEvent) (s : SysState) (r : Record)
    (h : sysRun es = some s) :
    s.channel.length ≤ 20
    ∧ (sysStep s (.handoff r) = none ↔ s.channel.length = 20) := by
  have hle : s.channel.length ≤ 20 := sysRunFrom_channel_le es initState s (by simp [initState]) h
  refine ⟨hle, ?_, ?_⟩
  · intro hnone
    by_cases hc : s.channel.length < 20
    · simp only [sysStep, if_pos hc] at hnone
      exact Option.noConfusion hnone
    · omega
  · intro h20
    simp only [sysStep]
    rw [if_neg (by omega)]

theorem channel_bounded_blocking_witness :
    fillState.channel.length ≤ 20
    ∧ (sysStep fillState (.handoff (mkRec 99)) = none ↔ fillState.channel.length = 20) :=
  channel_bounded_blocking fillEvents fillState (mkRec 99) (by decide)

end Pipeline

namespace Client

/-- Packing a scalar value below the surrogate range and reading it back is
the identity. -/
theorem toNat_ofNat_of_lt {n : Nat} (h : n < 55296) : (Char.ofNat n).toNat = n := by
  have hv : n.isValidChar := Or.inl h
  rw [Char.ofNat, dif_pos hv]
  rfl

/-- Rune-wise lower-casing is idempotent. -/
theorem toLower_idem (c : Char) : c.toLower.toLower = c.toLower := by
  unfold Char.toLower
  by_cases h : c.toNat ≥ 65 ∧ c.toNat ≤ 90
  · rw [if_pos h]
    have h32 : (Char.ofNat (c.toNat + 32)).toNat = c.toNat + 32 :=
      toNat_ofNat_of_lt (by omega)
    rw [if_neg]
    rw [h32]
    omega
  · rw [if_neg h, if_neg h]

/-- Lower-casing neither creates nor destroys white space. -/
theorem goIsSpace_toLower (c : Char) : goIsSpace c.toLower = goIsSpace c := by
  unfold Char.toLower goIsSpace
  by_cases h : c.toNat ≥ 65 ∧ c.toNat ≤ 90
  · rw [if_pos h]
    rw [toNat_ofNat_of_lt (by omega)]
    rw [Bool.eq_iff_iff]
    simp only [Bool.or_eq_true, decide_eq_true_eq]
    omega
  · rw [if_neg h]

theorem dropWhile_idem (p : α → Bool) : ∀ l : List α, (l.dropWhile p).dropWhile p = l.dropWhile p
  | [] => rfl
  | a :: l => by
    by_cases h : p a
    · rw [List.dropWhile_cons_of_pos h]
      exact dropWhile_idem p l
    · rw [List.dropWhile_cons_of_neg h, List.dropWhile_cons_of_neg h]

theorem exists_append_dropWhile (p : α → Bool) :
    ∀ l : List α, ∃ t, l = t ++ l.dropWhile p
  | [] => ⟨[], rfl⟩
  | a :: l => by
    by_cases h : p a
    · obtain ⟨t, ht⟩ := exists_append_dropWhile p l
      refine ⟨a :: t, ?_⟩
      rw [List.dropWhile_cons_of_pos h, List.cons_append, ← ht]
    · exact ⟨[], by rw [List.dropWhile_cons_of_neg h, List.nil_append]⟩

theorem dropWhile_eq_self_left (p : α → Bool) (y z : List α)
    (h : (y ++ z).dropWhile p = y ++ z) : y.dropWhile p = y := by
  cases y with
  | nil => rfl
  | cons a t =>
    by_cases hp : p a
    · exfalso
      rw [List.cons_append, List.dropWhile_cons_of_pos hp] at h
      have hle := ((t ++ z).dropWhile_sublist p).length_le
      rw [h] at hle
      simp at hle
    · rw [List.dropWhile_cons_of_neg hp]

/-- Trimming is idempotent. -/
theorem trimRunes_idem (l : List Char) : trimRunes (trimRunes l) = trimRunes l := by
  unfold trimRunes
  set p := goIsSpace
  set x := l.dropWhile p with hx
  set y := (x.reverse.dropWhile p).reverse with hy
  have hyx : ∃ t, x = y ++ t := by
    obtain ⟨t, ht⟩ := exists_append_dropWhile p x.reverse
    refine ⟨t.reverse, ?_⟩
    have := congrArg List.reverse ht
    rw [List.reverse_reverse] at this  
    rw [this, List.reverse_append, hy]
  have hxx : x.dropWhile p = x := dropWhile_idem p l
  have hyy : y.dropWhile p = y := by
    obtain ⟨t, ht⟩ := hyx
    exact dropWhile_eq_self_left p y t (by rw [← ht]; exact hxx)
  rw [hyy]
  have hrev : y.reverse.dropWhile p = y.reverse := by
    rw [hy, List.reverse_reverse]
    exact dropWhile_idem p x.reverse
  rw [hrev, List.reverse_reverse]

/-- Trimming commutes with rune-wise lower-casing. -/
theorem trimRunes_map_toLower (l : List Char) :
    trimRunes (l.map Char.toLower) = (trimRunes l).map Char.toLower := by
  unfold trimRunes
  have hpf : (goIsSpace ∘ Char.toLower) = goIsSpace := funext goIsSpace_toLower
  rw [List.dropWhile_map, hpf, ← List.map_reverse, List.dropWhile_map, hpf, ← List.map_reverse]

/-- The composite normalization (lower-case, then trim) is idempotent. -/
theorem norm_idem (s : String) :
    trimStr (lowerStr (trimStr (lowerStr s))) = trimStr (lowerStr s) := by
  show String.mk (trimRunes ((trimRunes (s.data.map Char.toLower)).map Char.toLower))
      = String.mk (trimRunes (s.data.map Char.toLower))
  congr 1
  rw [← trimRunes_map_toLower, List.map_map,
    show Char.toLower ∘ Char.toLower = Char.toLower from funext toLower_idem,
    trimRunes_idem]

/-- A successful association-list lookup yields a member pair. -/
theorem lookup_mem {α β : Type} [BEq α] [LawfulBEq α] :
    ∀ {l : List (α × β)} {k : α} {v : β}, l.lookup k = some v → (k, v) ∈ l := by
  intro l
  induction l with
  | nil => intro k v h; simp [List.lookup] at h
  | cons p l ih =>
    intro k v h
    obtain ⟨a, b⟩ := p
    rw [List.lookup_cons] at h
    by_cases hk : k == a
    · rw [hk] at h
      simp only [] at h
      cases h
      have : k = a := eq_of_beq hk
      subst this
      exact List.mem_cons_self _ _
    · rw [Bool.not_eq_true] at hk
      rw [hk] at h
      simp only [] at h
      exact List.mem_cons_of_mem _ (ih h)

/-- Every canonical value of the synonym table is a fixed point of
`sanitizeCategory`. -/
theorem categoryMap_values_fixed : ∀ p ∈ categoryMap, sanitizeCategory p.2 = p.2 := by
  decide

/-- C10: category normalization is idempotent: normalizing twice equals
normalizing once — mapped inputs land on canonical tokens that the map fixes,
and unmapped inputs land on their lower-cased trimmed form, which
renormalizes to itself. -/
theorem sanitizeCategory_idem (s : String) :
    sanitizeCategory (sanitizeCategory s) = sanitizeCategory s := by
  cases h : categoryMap.lookup (trimStr (lowerStr s)) with
  | some v =>
    have hs : sanitizeCategory s = v := by
      simp only [sanitizeCategory, h]
    rw [hs]
    exact categoryMap_values_fixed _ (lookup_mem h)
  | none =>
    have hs : sanitizeCategory s = trimStr (lowerStr s) := by
      simp only [sanitizeCategory, h]
    rw [hs]
    simp only [sanitizeCategory]
    rw [norm_idem s]
    simp only [h]

end Client
